import Mathlib

/-!
Verification development for the makata real-time speech-translation pipeline.

The definitions below are shallow embeddings of the TypeScript services in
`src/services/`:

* `translationPipeline.ts` / the `TranslationPipeline` copy in `deepgramSTT.ts`
  (cache, `translateWithCache`, `processSegment`, `stop`),
* `realtimeTranslationService.ts` (`handleTranscript`, `stop`),
* `audioQueue.ts` (the `AudioQueue` class appended to `translationPipeline.ts`),
* the `LiveSession` scheduling logic of `geminiService.ts`
  (appended to `webrtcService.ts`),
* `webSpeechSTT.ts` (the `onerror` handler of `setupRecognition`),
* `deepgramSTT.ts` (`handleTranscript` label prefixing),
* `transcriptLogger.ts` (`logSegment` and its label extraction).

JavaScript `Map` insertion-order semantics are modelled by association lists
(`jsMapGet`, `jsMapSet`, `jsMapDelete`, `jsMapFirstKey`).  Asynchronous
external calls (translation engine, TTS engine, database) are modelled as
explicit inputs and emitted effect lists.  Wall-clock instants are `Nat`
milliseconds except in the Web Audio scheduling model, where the
`AudioContext.currentTime` clock is a rational number of seconds.
-/

set_option maxRecDepth 8000

namespace Makata

/-- JavaScript whitespace test used by `String.prototype.trim` and `\s`;
covers the characters relevant to this code base. -/
def jsWhitespace (c : Char) : Bool :=
  c = ' ' || c = '\t' || c = '\n' || c = '\r' || c = '\x0b' || c = '\x0c'

/-- Model of the JS guard `!text.trim()`: `text.trim()` is the empty string
iff every character of `text` is whitespace. -/
def trimEmpty (s : String) : Bool :=
  s.data.all jsWhitespace

/-- A transcript segment as produced by the STT services (`deepgramSTT.ts`
and `webSpeechSTT.ts` both export this shape). -/
structure TranscriptSegment where
  id : String
  text : String
  isFinal : Bool
  startMs : Nat
  endMs : Nat
  confidence : ℚ
deriving DecidableEq, Repr

/-- Outcome of one invocation of the external translation engine inside
`translateText` (`geminiService.ts`): either the model call succeeds and the
extracted text is returned (possibly empty when the response carried no
text), or the call throws. -/
inductive EngineResult where
  | ok (translated : String)
  | failure
deriving DecidableEq, Repr

/-- `translateText` of `geminiService.ts`: on success it returns the extracted
text; the `catch` block returns the *input* text unchanged
(`catch (error) { ... return text; }`).  In particular `translateText` never
throws. -/
def translateTextResult (text : String) (r : EngineResult) : String :=
  match r with
  | .ok t => t
  | .failure => text

/-! ### JavaScript `Map` as an insertion-ordered association list

`Map.prototype.set` on an existing key updates the value in place, keeping
the key's original position in iteration order; on a fresh key it appends.
`map.keys().next().value` is the first key in insertion order. -/

/-- `map.get(key)`. -/
def jsMapGet {α : Type} : List (String × α) → String → Option α
  | [], _ => none
  | (k, v) :: rest, key => if k = key then some v else jsMapGet rest key

/-- `map.set(key, val)`: in-place update of an existing key, append otherwise. -/
def jsMapSet {α : Type} : List (String × α) → String → α → List (String × α)
  | [], key, val => [(key, val)]
  | (k, v) :: rest, key, val =>
    if k = key then (k, val) :: rest else (k, v) :: jsMapSet rest key val

/-- `map.delete(key)`: removes the (unique) binding of `key` if present. -/
def jsMapDelete {α : Type} : List (String × α) → String → List (String × α)
  | [], _ => []
  | (k, v) :: rest, key =>
    if k = key then rest else (k, v) :: jsMapDelete rest key

/-- `map.keys().next().value`: the first key in insertion order. -/
def jsMapFirstKey {α : Type} (m : List (String × α)) : Option String :=
  m.head?.map Prod.fst

/-! ### Live Audio Session scheduling (`LiveSession` in `geminiService.ts`)

`queueAudio` schedules each incoming chunk at `max(nextStartTime, now)` and
advances `nextStartTime` by the chunk's duration; `clearAudioQueue` (run on
the server's `interrupted` signal) calls `stop()` on every source still in
`this.sources`, empties the set, and resets `nextStartTime` to
`audioContext.currentTime`.  A source is removed from `this.sources` by its
`onended` handler when it finishes, so the set holds exactly the
not-yet-finished scheduled sources. -/

/-- Scheduling state of a `LiveSession`: the `nextStartTime` clock and the
`(start, end)` intervals of the scheduled, not-yet-finished sources. -/
structure LiveAudioState where
  nextStartTime : ℚ
  sources : List (ℚ × ℚ)
deriving DecidableEq, Repr

/-- `queueAudio` at wall-clock `now` for a decoded buffer of duration `dur`:
returns the new state and the start time chosen for the chunk. -/
def queueAudio (st : LiveAudioState) (now dur : ℚ) : LiveAudioState × ℚ :=
  let startTime := max st.nextStartTime now
  ({ nextStartTime := startTime + dur,
     sources := st.sources ++ [(startTime, startTime + dur)] }, startTime)

/-- `onended` for a finished source: `this.sources.delete(source)`. -/
def sourceEnded (st : LiveAudioState) (s : ℚ × ℚ) : LiveAudioState :=
  { st with sources := st.sources.erase s }

/-- `clearAudioQueue` at wall-clock `now`: returns the new state and the list
of sources on which `stop()` was called. -/
def clearAudioQueue (st : LiveAudioState) (now : ℚ) : LiveAudioState × List (ℚ × ℚ) :=
  ({ nextStartTime := now, sources := [] }, st.sources)

/-! ### Web Speech STT error handling (`webSpeechSTT.ts`, `setupRecognition`)

Two event handlers matter for error recovery.  The `recognition.onerror`
handler maps the provider error code to a message, always surfaces it through
the error callback, schedules one `restart` timer after 1000 ms when the
error is `'network'` and the instance is still marked recognizing — and
leaves `isRecognizing` untouched.  The `recognition.onend` handler (the
recognition engine fires an `end` event after every fatal error) calls
`this.recognition.start()` immediately whenever `isRecognizing` is still
true.  The Deepgram transcript source's error listener
(`deepgramSTT.ts`, the `LiveTranscriptionEvents.Error` handler) only
surfaces `err.message || 'Deepgram Error'` and never restarts anything. -/

/-- `mapErrorMessage` of `webSpeechSTT.ts`. -/
def mapErrorMessage (e : String) : String :=
  if e = "no-speech" then "No speech detected. Please try again."
  else if e = "audio-capture" then "No microphone found. Please check your audio settings."
  else if e = "not-allowed" then "Microphone permission denied."
  else if e = "network" then "Network error. Please check your connection."
  else if e = "aborted" then "Speech recognition was aborted."
  else if e = "service-not-allowed" then "Speech recognition service not allowed."
  else "Speech recognition error: " ++ e

/-- What one recognition event handler run produces: the messages surfaced
through the error callback, the number of immediate `recognition.start()`
calls made synchronously, and the delays (ms) of the scheduled `restart`
timers. -/
structure SpeechEventResult where
  surfaced : List String
  immediateRestarts : Nat
  retryDelaysMs : List Nat
deriving DecidableEq, Repr

/-- The `recognition.onerror` handler: surface the mapped message once and
schedule one `restart` after 1000 ms iff the error is `'network'` while
`isRecognizing` is still true.  The second component is the `isRecognizing`
flag after the handler: `onerror` never modifies it. -/
def onRecognitionError (isRecognizing : Bool) (err : String) : SpeechEventResult × Bool :=
  ({ surfaced := [mapErrorMessage err],
     immediateRestarts := 0,
     retryDelaysMs := if err = "network" ∧ isRecognizing = true then [1000] else [] },
   isRecognizing)

/-- The `recognition.onend` handler: while `isRecognizing` is still true it
calls `this.recognition.start()` immediately (one restart); the flag is not
modified. -/
def onRecognitionEnd (isRecognizing : Bool) : SpeechEventResult × Bool :=
  ({ surfaced := [],
     immediateRestarts := if isRecognizing = true then 1 else 0,
     retryDelaysMs := [] }, isRecognizing)

/-- Total number of automatic retries (scheduled `restart` timers plus
immediate `recognition.start()` calls) the program makes for one recognition
error: the engine fires the `error` event and then the `end` event, and both
handlers run on the flag state `onerror` left behind. -/
def recognitionRetries (isRecognizing : Bool) (err : String) : Nat :=
  let e := onRecognitionError isRecognizing err
  let n := onRecognitionEnd e.2
  e.1.retryDelaysMs.length + n.1.immediateRestarts

/-- The Deepgram error listener (`deepgramSTT.ts`): surface
`err.message || 'Deepgram Error'` through the error callback; no restart of
any kind. -/
def deepgramOnError (msg : Option String) : SpeechEventResult :=
  { surfaced := [match msg with
      | some m => if m = "" then "Deepgram Error" else m
      | none => "Deepgram Error"],
    immediateRestarts := 0,
    retryDelaysMs := [] }

/-! ### TranslationPipeline (`translationPipeline.ts`)

`processSegment` runs for every segment delivered by the STT callback.  The
asynchronous collaborators are inputs: the engine outcome of a potential
`translateText` call, and the row id (or `null`) returned by `saveSegment`.
Its externally visible behaviour is the emitted effect list plus the updated
pipeline state. -/

/-- `CACHE_TTL_MS = 3600000` (1 hour). -/
def CACHE_TTL_MS : Nat := 3600000

/-- `MAX_CACHE_SIZE = 1000`. -/
def MAX_CACHE_SIZE : Nat := 1000

/-- A `TranslationCacheEntry` as stored in `this.translationCache`. -/
structure TranslationCacheEntry where
  sourceText : String
  sourceLang : String
  targetLang : String
  translatedText : String
  timestamp : Nat
deriving DecidableEq, Repr

/-- The `PipelineConfig` fields used by the embedded methods (the
`geminiClient` handle is represented by the `EngineResult` inputs). -/
structure PipelineConfig where
  roomId : String
  speakerId : String
  sourceLang : String
  targetLang : String
  useWebSpeech : Bool
  enableTTS : Bool
deriving DecidableEq, Repr

/-- Mutable state of a `TranslationPipeline` instance, together with the
state of the collaborators its `stop()` touches (the owned STT service) and
does not touch (the `AudioQueue`, whose pending item durations and
`isPlaying` flag are recorded here). -/
structure TPState where
  isActive : Bool
  processedSegments : List String
  cache : List (String × TranslationCacheEntry)
  sttActive : Bool
  audioQueuePending : List Nat
  audioQueuePlaying : Bool
deriving DecidableEq, Repr

/-- Externally visible effects of `processSegment`: callback invocations,
external translation-engine invocations (with the exact input text handed to
the engine), database writes, and the start of TTS synthesis/playback for the
translated text (`generateAndEmitTTS`, the pipeline's Speaking step). -/
inductive Effect where
  | onTranscript (text : String) (isFinal : Bool)
  | onTranslation (text : String) (isFinal : Bool)
  | onError (msg : String)
  | engineTranslate (text : String)
  | dbSaveSegment (text : String)
  | dbSaveTranslation (text : String) (targetLang : String)
  | ttsRequested (text : String) (targetLang : String)
deriving DecidableEq, Repr

/-- The cache key `` `${sourceLang}_${text}_${targetLang}` ``. -/
def cacheKeyOf (sourceLang text targetLang : String) : String :=
  sourceLang ++ "_" ++ text ++ "_" ++ targetLang

/-- Result of `translateWithCache`: the returned string, the cache after the
call, and whether the external engine was invoked. -/
structure TWCResult where
  result : String
  cache : List (String × TranslationCacheEntry)
  engineCalled : Bool
deriving DecidableEq, Repr

/-- The eviction block of `translateWithCache`: when the cache size exceeds
`MAX_CACHE_SIZE`, delete the first key in insertion order. -/
def evictIfNeeded (m : List (String × TranslationCacheEntry)) :
    List (String × TranslationCacheEntry) :=
  if MAX_CACHE_SIZE < m.length then
    match jsMapFirstKey m with
    | some k => jsMapDelete m k
    | none => m
  else m

/-- `translateWithCache(text, targetLang)` at time `now`.  On a hit within
the TTL the cached value is returned with no engine call.  Otherwise
`translateText` is invoked (it never throws: engine failure yields the
original text), the result is cached under `cacheKeyOf`, and the eviction
block runs.  The `catch` branch of the source (returning `''`) is unreachable
because `translateText` catches internally. -/
def translateWithCache (cfg : PipelineConfig) (cache : List (String × TranslationCacheEntry))
    (text targetLang : String) (now : Nat) (engine : EngineResult) : TWCResult :=
  let cacheKey := cacheKeyOf cfg.sourceLang text targetLang
  let hit : Option TranslationCacheEntry :=
    match jsMapGet cache cacheKey with
    | some c => if now - c.timestamp < CACHE_TTL_MS then some c else none
    | none => none
  match hit with
  | some c => { result := c.translatedText, cache := cache, engineCalled := false }
  | none =>
    let translated := translateTextResult text engine
    { result := translated,
      cache := evictIfNeeded (jsMapSet cache cacheKey
        { sourceText := text, sourceLang := cfg.sourceLang, targetLang := targetLang,
          translatedText := translated, timestamp := now }),
      engineCalled := true }

/-- `if (segmentId && this.processedSegments.has(segmentId))`. -/
def alreadyProcessed (st : TPState) (segmentId : Option String) : Bool :=
  match segmentId with
  | some id => st.processedSegments.contains id
  | none => false

/-- `processSegment(text, isFinal, segmentId)` at time `now`, with the engine
outcome `engine` of the (potential) `translateText` call and the row id
`dbId` returned by `saveSegment` (used only when `isFinal`). -/
def processSegment (cfg : PipelineConfig) (st : TPState) (text : String) (isFinal : Bool)
    (segmentId : Option String) (now : Nat) (engine : EngineResult) (dbId : Option String) :
    List Effect × TPState :=
  if st.isActive = false ∨ trimEmpty text = true then ([], st)
  else if alreadyProcessed st segmentId = true then ([], st)
  else
    let e1 := [Effect.onTranscript text isFinal]
    let dbSegmentId : Option String := if isFinal then dbId else none
    let e2 := if isFinal then [Effect.dbSaveSegment text] else []
    let processed' :=
      if isFinal then
        match segmentId with
        | some id => st.processedSegments ++ [id]
        | none => st.processedSegments
      else st.processedSegments
    let twc := translateWithCache cfg st.cache text cfg.targetLang now engine
    let e3 := if twc.engineCalled then [Effect.engineTranslate text] else []
    let st' := { st with processedSegments := processed', cache := twc.cache }
    if twc.result = "" then
      (e1 ++ e2 ++ e3 ++ [Effect.onError "Translation failed"], st')
    else
      let e4 := [Effect.onTranslation twc.result isFinal]
      let e5 := if isFinal ∧ dbSegmentId.isSome then
          [Effect.dbSaveTranslation twc.result cfg.targetLang] else []
      let e6 := if cfg.enableTTS ∧ isFinal then
          [Effect.ttsRequested twc.result cfg.targetLang] else []
      (e1 ++ e2 ++ e3 ++ e4 ++ e5 ++ e6, st')

/-- `TranslationPipeline.stop()` (the `deepgramSTT.ts` copy, lines 266-275):
sets `isActive = false` and stops/nulls the owned STT service.  It does not
touch the `AudioQueue` or the audio context. -/
def TPstop (st : TPState) : TPState :=
  { st with isActive := false, sttActive := false }

/-- Configuration used by the C4 witness. -/
def c4cfg : PipelineConfig :=
  { roomId := "r", speakerId := "u", sourceLang := "es", targetLang := "en",
    useWebSpeech := true, enableTTS := true }

/-- A full cache of `MAX_CACHE_SIZE` entries under two-character keys, used
by the C4 witness. -/
def c4cache : List (String × TranslationCacheEntry) :=
  (List.range MAX_CACHE_SIZE).map (fun i =>
    (String.mk [Char.ofNat (48 + i / 40), Char.ofNat (48 + i % 40)],
     { sourceText := "s", sourceLang := "es", targetLang := "en",
       translatedText := "t", timestamp := 0 }))

/-! ### RealtimeTranslationService (`realtimeTranslationService.ts`) -/

/-- `CACHE_SIZE_LIMIT = 500`. -/
def RTS_CACHE_SIZE_LIMIT : Nat := 500

/-- State of a `RealtimeTranslationService` read by `handleTranscript`:
the active flag, the configured languages, and the `Map<string, string>`
translation cache. -/
structure RtsState where
  isActive : Bool
  sourceLang : String
  targetLang : String
  cache : List (String × String)
deriving DecidableEq, Repr

/-- Externally visible effects of `RealtimeTranslationService`. -/
inductive RtsEffect where
  | onTranscript (text : String) (isFinal : Bool)
  | onTranslation (text : String) (isFinal : Bool)
  | onError (msg : String)
  | engineTranslate (text : String)
  | statusChange (status : String)
  | ttsPlay (text : String)
deriving DecidableEq, Repr

/-- `handleTranscript(segment)`: interim segments only emit the transcript;
final segments go through the cache (`!translatedText` treats a cached empty
string as a miss), the engine on a miss, translation emission, discrete TTS
playback, and the status transitions translating → speaking → listening. -/
def handleTranscript (st : RtsState) (seg : TranscriptSegment) (engine : EngineResult) :
    List RtsEffect × RtsState :=
  if st.isActive = false ∨ trimEmpty seg.text = true then ([], st)
  else
    let e1 := [RtsEffect.onTranscript seg.text seg.isFinal]
    if seg.isFinal = false then (e1, st)
    else
      let key := st.sourceLang ++ ":" ++ seg.text ++ ":" ++ st.targetLang
      let cached : Option String :=
        match jsMapGet st.cache key with
        | some t => if t = "" then none else some t
        | none => none
      let step : String × List (String × String) × List RtsEffect :=
        match cached with
        | some t => (t, st.cache, [])
        | none =>
          let t := translateTextResult seg.text engine
          let c1 := jsMapSet st.cache key t
          let c2 :=
            if RTS_CACHE_SIZE_LIMIT < c1.length then
              match jsMapFirstKey c1 with
              | some k => jsMapDelete c1 k
              | none => c1
            else c1
          (t, c2, [RtsEffect.engineTranslate seg.text])
      (e1 ++ [RtsEffect.statusChange "translating"] ++ step.2.2 ++
        [RtsEffect.onTranslation step.1 true, RtsEffect.statusChange "speaking",
         RtsEffect.ttsPlay step.1, RtsEffect.statusChange "listening"],
       { st with cache := step.2.1 })

/-- Resource state of a `RealtimeTranslationService` as touched by `stop()`:
the Web Speech recognizer, the owned `LiveSession` (whose `disconnect` clears
its scheduled sources), the media stream and the audio output context. -/
structure RtsRunState where
  isActive : Bool
  sttRunning : Bool
  liveConnected : Bool
  liveScheduled : List (ℚ × ℚ)
  mediaOpen : Bool
  audioCtxOpen : Bool
deriving DecidableEq, Repr

/-- `RealtimeTranslationService.stop()`: a no-op when not active; otherwise
stops the recognizer, disconnects the live session (clearing its scheduled
audio), releases the media tracks, closes the audio context, deactivates, and
finally emits `onStatusChange('idle')`. -/
def RTSstop (st : RtsRunState) : List RtsEffect × RtsRunState :=
  if st.isActive = false then ([], st)
  else
    ([RtsEffect.statusChange "idle"],
     { isActive := false, sttRunning := false, liveConnected := false,
       liveScheduled := [], mediaOpen := false, audioCtxOpen := false })

/-! ### AudioQueue (`audioQueue.ts`, appended to `translationPipeline.ts`)

The queue drains one item at a time inside an async `processQueue` chain:
start the source, await `onended`, await a `gapMs` timeout, recurse.
`enqueue` pushes and, when `isPlaying` is false, starts a new chain
synchronously.  `clear` empties the pending array and resets `isPlaying`,
but does not stop the currently sounding source nor the suspended chain —
the chain wakes at its scheduled time and continues with whatever is then
pending.  The single-threaded event loop is modelled as a timed small-step
simulation: `chains` holds the wake-up instants of suspended `processQueue`
continuations, and every played interval `(start, start + duration)` is
recorded. -/

/-- The fixed inter-utterance gap: `private gapMs: number = 500`. -/
def gapMs : Nat := 500

/-- External commands issued to the `AudioQueue`. -/
inductive QCmd where
  | enqueue (dur : Nat)
  | clear
deriving DecidableEq, Repr

/-- Event-loop state of one `AudioQueue`. -/
structure AQState where
  chains : List Nat
  pending : List Nat
  isPlaying : Bool
  played : List (Nat × Nat)
deriving DecidableEq, Repr

/-- The earliest wake-up instant `≤ t` among `l` (ties resolved towards the
front of the list, matching FIFO timer order). -/
def minUnder (t : Nat) : List Nat → Option Nat
  | [] => none
  | w :: ws =>
    match minUnder t ws with
    | none => if w ≤ t then some w else none
    | some m => if w ≤ t ∧ w ≤ m then some w else some m

/-- The earliest wake-up instant among `l` (ties towards the front). -/
def minOf : List Nat → Option Nat
  | [] => none
  | w :: ws =>
    match minOf ws with
    | none => some w
    | some m => if w ≤ m then some w else some m

/-- Remove the first occurrence of `a` from `l`. -/
def removeOne : List Nat → Nat → List Nat
  | [], _ => []
  | w :: ws, a => if w = a then ws else w :: removeOne ws a

/-- One suspended `processQueue` continuation waking at `w`: if the pending
array is empty it sets `isPlaying := false` and dies; otherwise it sets
`isPlaying := true`, shifts the head item, plays it over `[w, w + d]`, and
re-suspends until `w + d + gapMs`. -/
def wakeBody (st : AQState) (w : Nat) (rest : List Nat) : AQState :=
  match st.pending with
  | [] => { st with chains := rest, isPlaying := false }
  | d :: ps =>
    { chains := rest ++ [w + d + gapMs], pending := ps, isPlaying := true,
      played := st.played ++ [(w, w + d)] }

/-- Fire, in deadline order, every suspended continuation due at or before
instant `t`.  `fuel ≥ chains.length + pending.length` guarantees completion. -/
def runWakes : Nat → Nat → AQState → AQState
  | 0, _, st => st
  | fuel + 1, t, st =>
    match minUnder t st.chains with
    | none => st
    | some w => runWakes fuel t (wakeBody st w (removeOne st.chains w))

/-- Fire every remaining suspended continuation, regardless of deadline
(used to run the simulation to quiescence). -/
def runWakesAll : Nat → AQState → AQState
  | 0, st => st
  | fuel + 1, st =>
    match minOf st.chains with
    | none => st
    | some w => runWakesAll fuel (wakeBody st w (removeOne st.chains w))

/-- The state of a fresh `AudioQueue`. -/
def aqInit : AQState :=
  { chains := [], pending := [], isPlaying := false, played := [] }

/-- Execute one external command at instant `time`: first fire all timers due
by `time`, then run the command.  `enqueue` pushes the item and, when
`isPlaying` is false, calls `processQueue()` synchronously (a continuation
waking at `time`); `clear` empties the pending array and resets the flag,
leaving suspended continuations and the sounding source untouched. -/
def aqStep (st : AQState) (time : Nat) (c : QCmd) : AQState :=
  let st1 := runWakes (st.chains.length + st.pending.length) time st
  match c with
  | .enqueue d =>
    let st2 := { st1 with pending := st1.pending ++ [d] }
    if st2.isPlaying then st2
    else runWakes (st2.chains.length + st2.pending.length + 1) time
      { st2 with chains := st2.chains ++ [time] }
  | .clear => { st1 with pending := [], isPlaying := false }

/-- Execute a time-stamped command list from a given state. -/
def aqExec (st : AQState) : List (Nat × QCmd) → AQState
  | [] => st
  | c :: rest => aqExec (aqStep st c.1 c.2) rest

/-- Run a command list from the fresh state and then let all remaining
timers fire, so every item that will ever play has played. -/
def aqRun (cmds : List (Nat × QCmd)) : AQState :=
  let st := aqExec aqInit cmds
  runWakesAll (st.chains.length + st.pending.length) st

/-- The played intervals, in order: each item starts no earlier than
`gapMs` after the previous item ends. -/
def aqChainOk : List (Nat × Nat) → Bool
  | [] => true
  | [_] => true
  | a :: b :: rest => decide (a.2 + gapMs ≤ b.1) && aqChainOk (b :: rest)

/-- End instant of the last played interval (`0` for an empty history). -/
def lastEnd : List (Nat × Nat) → Nat
  | [] => 0
  | [p] => p.2
  | _ :: ps => lastEnd ps

/-- Command instants are nondecreasing, starting from `t0`. -/
def timesMonoFrom : Nat → List (Nat × QCmd) → Prop
  | _, [] => True
  | t0, c :: rest => t0 ≤ c.1 ∧ timesMonoFrom c.1 rest

/-- Invariant of the `AudioQueue` event loop in clear-free executions: the
played history is gap-separated and well-formed, at most one `processQueue`
chain is alive, `isPlaying` tracks exactly whether a chain is alive, an idle
queue has no pending items, and any live chain wakes no earlier than `gapMs`
after the last played item ended. -/
structure AQInv (st : AQState) : Prop where
  playOk : aqChainOk st.played = true
  wfPlayed : ∀ p ∈ st.played, p.1 ≤ p.2
  chainsLe : st.chains.length ≤ 1
  flagIff : st.isPlaying = true ↔ st.chains ≠ []
  idleNoPending : st.isPlaying = false → st.pending = []
  chainsGap : ∀ w ∈ st.chains, st.played = [] ∨ lastEnd st.played + gapMs ≤ w

/-- When no chain is alive at instant `t`, the last item ended at least
`gapMs` before `t` (so an item started now still respects the gap). -/
def AQTime (t : Nat) (st : AQState) : Prop :=
  st.chains = [] → st.played = [] ∨ lastEnd st.played + gapMs ≤ t

/-! ### DeepgramSTT (`deepgramSTT.ts`) -/

/-- The fields of a `DeepgramSTT` instance read by `handleTranscript`. -/
structure DgState where
  label : String
  segmentCounter : Nat
deriving DecidableEq, Repr

/-- `DeepgramSTT.handleTranscript` for a transcript event carrying text
`transcript`, finality `isFinal` and confidence `conf`, at time `now`:
empty/whitespace transcripts are dropped; otherwise the configured label, when
nonempty, is prepended as `` `${label}: ${transcript}` `` and a segment is
emitted; the counter advances on final segments. -/
def dgHandleTranscript (st : DgState) (transcript : String) (isFinal : Bool)
    (conf : ℚ) (now : Nat) : Option TranscriptSegment × DgState :=
  if trimEmpty transcript = true then (none, st)
  else
    let labeledText :=
      if st.label = "" then transcript else st.label ++ ": " ++ transcript
    let seg : TranscriptSegment :=
      { id := "dg-" ++ toString st.segmentCounter ++ "-" ++
          (if isFinal then "final" else "partial"),
        text := labeledText, isFinal := isFinal, startMs := now, endMs := now,
        confidence := conf }
    (some seg,
     { st with segmentCounter :=
         if isFinal then st.segmentCounter + 1 else st.segmentCounter })

/-! ### TranscriptLogger (`transcriptLogger.ts`)

`logSegment` applies the regular expression `^([^:]+):\s+(.+)$` to the raw
content; a match yields the speaker (group 1) and the stripped text
(group 2), otherwise the speaker is `"Unknown"` and the text is the raw
content.  The regex is modelled exactly over the character list: `[^:]+`
stops at the first colon, `\s+` is a maximal run of whitespace that
backtracks so that `(.+)` (which cannot cross a line terminator) stays
nonempty, and `$` anchors at the end of input. -/

/-- A character `.` can match in a JS regex without the `s` flag. -/
def dotOk (c : Char) : Bool :=
  !(c = '\n' || c = '\r' || c = ' ' || c = ' ')

/-- Split at the first colon: `some (before, after)` with
`l = before ++ ':' :: after` and no colon in `before`. -/
def splitColon : List Char → Option (List Char × List Char)
  | [] => none
  | c :: cs =>
    if c = ':' then some ([], cs)
    else
      match splitColon cs with
      | none => none
      | some (a, b) => some (c :: a, b)

/-- Backtracking for `\s+(.+)$` over `after`, trying `k` whitespace
characters downward from the maximal run: the first `k ≥ 1` for which the
remainder is nonempty and `.`-matchable wins. -/
def tryDots : Nat → List Char → Option (List Char)
  | 0, _ => none
  | k + 1, after =>
    let rest := after.drop (k + 1)
    if rest ≠ [] ∧ rest.all dotOk = true then some rest else tryDots k after

/-- The match of `^([^:]+):\s+(.+)$` against `raw`:
`some (speaker, text)` on a match, `none` otherwise. -/
def regexStripLabel (raw : String) : Option (String × String) :=
  match splitColon raw.data with
  | none => none
  | some (before, after) =>
    if before = [] then none
    else
      match tryDots (after.takeWhile jsWhitespace).length after with
      | some rest => some (String.mk before, String.mk rest)
      | none => none

/-- `TranscriptLogger.logSegment(sessionId, rawContent)`: the row inserted
into the `transcripts` table as `(session_id, speaker_id, content)`, or
`none` when the stripped text is blank and nothing is saved. -/
def logSegment (sessionId rawContent : String) : Option (String × String × String) :=
  let parsed := regexStripLabel rawContent
  let speaker := match parsed with | some p => p.1 | none => "Unknown"
  let text := match parsed with | some p => p.2 | none => rawContent
  if trimEmpty text = true then none else some (sessionId, speaker, text)

/-! ### Association-list facts for the `Map` model -/

/-- Reading back the key just written. -/
theorem jsMapGet_set_self {α : Type} (m : List (String × α)) (k : String) (v : α) :
    jsMapGet (jsMapSet m k v) k = some v := by
  induction m with
  | nil => simp [jsMapSet, jsMapGet]
  | cons p rest ih =>
    by_cases h : p.1 = k <;>
      simp [jsMapSet, jsMapGet, h, ih]

/-- Writing a fresh key appends it, keeping insertion order. -/
theorem jsMapSet_of_get_none {α : Type} {m : List (String × α)} {k : String} (v : α)
    (h : jsMapGet m k = none) : jsMapSet m k v = m ++ [(k, v)] := by
  induction m with
  | nil => simp [jsMapSet]
  | cons p rest ih =>
    simp only [jsMapGet] at h
    by_cases hp : p.1 = k
    · simp [hp] at h
    · simp only [hp, if_false] at h
      simp [jsMapSet, hp, ih h]

/-- Writing an existing key keeps the size. -/
theorem jsMapSet_length_some {α : Type} {m : List (String × α)} {k : String} {c : α} (v : α)
    (h : jsMapGet m k = some c) : (jsMapSet m k v).length = m.length := by
  induction m with
  | nil => simp [jsMapGet] at h
  | cons p rest ih =>
    simp only [jsMapGet] at h
    by_cases hp : p.1 = k
    · simp [jsMapSet, hp]
    · simp only [hp, if_false] at h
      simp [jsMapSet, hp, ih h]
/-- Deleting a different key does not change a lookup. -/
theorem jsMapGet_delete_ne {α : Type} {m : List (String × α)} {kd k : String}
    (h : kd ≠ k) : jsMapGet (jsMapDelete m kd) k = jsMapGet m k := by
  induction m with
  | nil => simp [jsMapDelete]
  | cons p rest ih =>
    by_cases hp : p.1 = kd
    · have hk : p.1 ≠ k := by rw [hp]; exact h
      simp [jsMapDelete, jsMapGet, hp, hk, h]
    · simp [jsMapDelete, jsMapGet, hp, ih]

/-- A key absent from the map differs from the head key. -/
theorem jsMapGet_none_head {α : Type} {k₀ : String} {v₀ : α} {rest : List (String × α)}
    {key : String} (h : jsMapGet ((k₀, v₀) :: rest) key = none) : k₀ ≠ key := by
  intro heq
  simp [jsMapGet, heq] at h

/-- A cache within capacity is not touched by the eviction block. -/
theorem evictIfNeeded_of_le {m : List (String × TranslationCacheEntry)}
    (h : m.length ≤ MAX_CACHE_SIZE) : evictIfNeeded m = m := by
  have : ¬ MAX_CACHE_SIZE < m.length := by omega
  simp [evictIfNeeded, this]

/-- On an over-capacity cache, the eviction block deletes exactly the head
binding (the earliest-inserted key). -/
theorem evictIfNeeded_cons {p : String × TranslationCacheEntry}
    {rest : List (String × TranslationCacheEntry)}
    (h : MAX_CACHE_SIZE < (p :: rest).length) : evictIfNeeded (p :: rest) = rest := by
  rcases p with ⟨k₀, v₀⟩
  have h' : MAX_CACHE_SIZE < rest.length + 1 := by simpa using h
  simp [evictIfNeeded, h', jsMapFirstKey, jsMapDelete]

/-- Branch lemma: a fresh cache hit returns the cached value, leaves the
cache unchanged and calls no engine. -/
theorem translateWithCache_hit (cfg : PipelineConfig)
    (cache : List (String × TranslationCacheEntry)) (text targetLang : String)
    (now : Nat) (e : EngineResult) (c : TranslationCacheEntry)
    (hget : jsMapGet cache (cacheKeyOf cfg.sourceLang text targetLang) = some c)
    (hfresh : now - c.timestamp < CACHE_TTL_MS) :
    translateWithCache cfg cache text targetLang now e =
      { result := c.translatedText, cache := cache, engineCalled := false } := by
  simp [translateWithCache, hget, hfresh]

/-- Branch lemma: with no binding for the key, the call misses. -/
theorem translateWithCache_missNone (cfg : PipelineConfig)
    (cache : List (String × TranslationCacheEntry)) (text targetLang : String)
    (now : Nat) (e : EngineResult)
    (hget : jsMapGet cache (cacheKeyOf cfg.sourceLang text targetLang) = none) :
    translateWithCache cfg cache text targetLang now e =
      { result := translateTextResult text e,
        cache := evictIfNeeded (jsMapSet cache (cacheKeyOf cfg.sourceLang text targetLang)
          { sourceText := text, sourceLang := cfg.sourceLang, targetLang := targetLang,
            translatedText := translateTextResult text e, timestamp := now }),
        engineCalled := true } := by
  simp [translateWithCache, hget]

/-- Branch lemma: an expired binding also misses. -/
theorem translateWithCache_missStale (cfg : PipelineConfig)
    (cache : List (String × TranslationCacheEntry)) (text targetLang : String)
    (now : Nat) (e : EngineResult) (c : TranslationCacheEntry)
    (hget : jsMapGet cache (cacheKeyOf cfg.sourceLang text targetLang) = some c)
    (hstale : ¬ now - c.timestamp < CACHE_TTL_MS) :
    translateWithCache cfg cache text targetLang now e =
      { result := translateTextResult text e,
        cache := evictIfNeeded (jsMapSet cache (cacheKeyOf cfg.sourceLang text targetLang)
          { sourceText := text, sourceLang := cfg.sourceLang, targetLang := targetLang,
            translatedText := translateTextResult text e, timestamp := now }),
        engineCalled := true } := by
  simp [translateWithCache, hget, hstale]

/-- After `translateWithCache` on a cache within capacity, the key of the
requested triple is bound, its value is the returned string, and its
timestamp is either `now` (the call missed and stored) or that of an entry
that was already present and fresh (the call hit). -/
theorem translateWithCache_key_after (cfg : PipelineConfig)
    (cache : List (String × TranslationCacheEntry)) (text : String) (now : Nat)
    (e : EngineResult) (hcap : cache.length ≤ MAX_CACHE_SIZE) :
    ∃ c, jsMapGet (translateWithCache cfg cache text cfg.targetLang now e).cache
        (cacheKeyOf cfg.sourceLang text cfg.targetLang) = some c ∧
      c.translatedText = (translateWithCache cfg cache text cfg.targetLang now e).result ∧
      (c.timestamp = now ∨
        (jsMapGet cache (cacheKeyOf cfg.sourceLang text cfg.targetLang) = some c ∧
          now - c.timestamp < CACHE_TTL_MS)) := by
  rcases hget : jsMapGet cache (cacheKeyOf cfg.sourceLang text cfg.targetLang) with _ | c
  · rw [translateWithCache_missNone cfg cache text cfg.targetLang now e hget]
    have hset := jsMapSet_of_get_none (m := cache)
      (k := cacheKeyOf cfg.sourceLang text cfg.targetLang)
      { sourceText := text, sourceLang := cfg.sourceLang, targetLang := cfg.targetLang,
        translatedText := translateTextResult text e, timestamp := now } hget
    by_cases hev : MAX_CACHE_SIZE < cache.length + 1
    · have hpos : cache ≠ [] := by
        intro hnil
        rw [hnil] at hev
        simp [MAX_CACHE_SIZE] at hev
      obtain ⟨p, rest, rfl⟩ := List.exists_cons_of_ne_nil hpos
      have hlen : MAX_CACHE_SIZE <
          (p :: (rest ++ [(cacheKeyOf cfg.sourceLang text cfg.targetLang,
            ({ sourceText := text, sourceLang := cfg.sourceLang,
               targetLang := cfg.targetLang,
               translatedText := translateTextResult text e,
               timestamp := now } : TranslationCacheEntry))])).length := by
        simp only [List.length_append, List.length_cons] at hev ⊢
        omega
      rw [hset, List.cons_append, evictIfNeeded_cons hlen]
      refine ⟨{ sourceText := text, sourceLang := cfg.sourceLang,
                targetLang := cfg.targetLang,
                translatedText := translateTextResult text e,
                timestamp := now }, ?_, rfl, Or.inl rfl⟩
      have hne : p.1 ≠ cacheKeyOf cfg.sourceLang text cfg.targetLang := by
        rcases p with ⟨k₀, v₀⟩
        exact jsMapGet_none_head hget
      have hrest : jsMapGet (p :: rest) (cacheKeyOf cfg.sourceLang text cfg.targetLang) =
          none := hget
      have : jsMapGet rest (cacheKeyOf cfg.sourceLang text cfg.targetLang) = none := by
        rcases p with ⟨k₀, v₀⟩
        simpa [jsMapGet, hne] using hrest
      rw [← jsMapSet_of_get_none _ this, jsMapGet_set_self]
    · have hle : (jsMapSet cache (cacheKeyOf cfg.sourceLang text cfg.targetLang)
          { sourceText := text, sourceLang := cfg.sourceLang, targetLang := cfg.targetLang,
            translatedText := translateTextResult text e, timestamp := now }).length ≤
          MAX_CACHE_SIZE := by
        rw [hset]
        simp only [List.length_append, List.length_cons, List.length_nil]
        omega
      rw [evictIfNeeded_of_le hle]
      exact ⟨{ sourceText := text, sourceLang := cfg.sourceLang,
               targetLang := cfg.targetLang,
               translatedText := translateTextResult text e,
               timestamp := now }, jsMapGet_set_self _ _ _, rfl, Or.inl rfl⟩
  · by_cases hfresh : now - c.timestamp < CACHE_TTL_MS
    · rw [translateWithCache_hit cfg cache text cfg.targetLang now e c hget hfresh]
      exact ⟨c, hget, rfl, Or.inr ⟨rfl, hfresh⟩⟩
    · rw [translateWithCache_missStale cfg cache text cfg.targetLang now e c hget hfresh]
      have hle : (jsMapSet cache (cacheKeyOf cfg.sourceLang text cfg.targetLang)
          { sourceText := text, sourceLang := cfg.sourceLang, targetLang := cfg.targetLang,
            translatedText := translateTextResult text e, timestamp := now }).length ≤
          MAX_CACHE_SIZE := by
        rw [jsMapSet_length_some _ hget]
        exact hcap
      rw [evictIfNeeded_of_le hle]
      exact ⟨{ sourceText := text, sourceLang := cfg.sourceLang,
               targetLang := cfg.targetLang,
               translatedText := translateTextResult text e,
               timestamp := now }, jsMapGet_set_self _ _ _, rfl, Or.inl rfl⟩

/-- C3: calling `translateWithCache` twice for the same
(source language, text, target language) triple, with the second call within
the entry's TTL and the entry not evicted in between (the calls are
consecutive and the cache is within capacity, so the entry written or read by
the first call is still present), returns the identical string the second
time and performs no second external engine invocation. -/
theorem translator_cache_hit (cfg : PipelineConfig)
    (cache : List (String × TranslationCacheEntry)) (text : String)
    (now₁ now₂ : Nat) (e₁ e₂ : EngineResult)
    (hcap : cache.length ≤ MAX_CACHE_SIZE)
    (hts : now₂ - now₁ < CACHE_TTL_MS)
    (hfresh : ∀ c, jsMapGet cache (cacheKeyOf cfg.sourceLang text cfg.targetLang) = some c →
      now₁ - c.timestamp < CACHE_TTL_MS → now₂ - c.timestamp < CACHE_TTL_MS) :
    (translateWithCache cfg
        (translateWithCache cfg cache text cfg.targetLang now₁ e₁).cache
        text cfg.targetLang now₂ e₂).result =
      (translateWithCache cfg cache text cfg.targetLang now₁ e₁).result ∧
    (translateWithCache cfg
        (translateWithCache cfg cache text cfg.targetLang now₁ e₁).cache
        text cfg.targetLang now₂ e₂).engineCalled = false := by
  obtain ⟨c, hget, hval, hts'⟩ :=
    translateWithCache_key_after cfg cache text now₁ e₁ hcap
  have hfresh₂ : now₂ - c.timestamp < CACHE_TTL_MS := by
    rcases hts' with h | ⟨horig, hf⟩
    · rw [h]; exact hts
    · exact hfresh c horig hf
  rw [translateWithCache_hit cfg _ text cfg.targetLang now₂ e₂ c hget hfresh₂, hval]
  exact ⟨rfl, rfl⟩

/-- Witness for C3: empty cache, first call stores the engine's result at
t = 0, second call at t = 1 returns it with no engine invocation. -/
theorem translator_cache_hit_witness :
    (translateWithCache
        { roomId := "r", speakerId := "u", sourceLang := "es", targetLang := "en",
          useWebSpeech := true, enableTTS := true }
        (translateWithCache
          { roomId := "r", speakerId := "u", sourceLang := "es", targetLang := "en",
            useWebSpeech := true, enableTTS := true }
          [] "Hola" "en" 0 (EngineResult.ok "Hello")).cache
        "Hola" "en" 1 EngineResult.failure).result =
      (translateWithCache
        { roomId := "r", speakerId := "u", sourceLang := "es", targetLang := "en",
          useWebSpeech := true, enableTTS := true }
        [] "Hola" "en" 0 (EngineResult.ok "Hello")).result ∧
    (translateWithCache
        { roomId := "r", speakerId := "u", sourceLang := "es", targetLang := "en",
          useWebSpeech := true, enableTTS := true }
        (translateWithCache
          { roomId := "r", speakerId := "u", sourceLang := "es", targetLang := "en",
            useWebSpeech := true, enableTTS := true }
          [] "Hola" "en" 0 (EngineResult.ok "Hello")).cache
        "Hola" "en" 1 EngineResult.failure).engineCalled = false :=
  translator_cache_hit
    { roomId := "r", speakerId := "u", sourceLang := "es", targetLang := "en",
      useWebSpeech := true, enableTTS := true }
    [] "Hola" 0 1 (EngineResult.ok "Hello") EngineResult.failure
    (by decide) (by decide) (by intro c hc; simp [jsMapGet] at hc)

/-- C4: a completed `translateWithCache` keeps the cache within its
configured capacity `MAX_CACHE_SIZE = 1000`, and when an insertion pushes the
size past the capacity, the evicted binding is exactly the first one in
insertion order (the earliest-inserted entry): the resulting cache is the old
cache minus its head, with the new entry appended. -/
theorem cache_capacity_and_eviction (cfg : PipelineConfig)
    (cache : List (String × TranslationCacheEntry)) (text : String) (now : Nat)
    (e : EngineResult) (hcap : cache.length ≤ MAX_CACHE_SIZE) :
    (translateWithCache cfg cache text cfg.targetLang now e).cache.length ≤ MAX_CACHE_SIZE ∧
    (cache.length = MAX_CACHE_SIZE →
      jsMapGet cache (cacheKeyOf cfg.sourceLang text cfg.targetLang) = none →
      (translateWithCache cfg cache text cfg.targetLang now e).cache =
        cache.tail ++ [(cacheKeyOf cfg.sourceLang text cfg.targetLang,
          { sourceText := text, sourceLang := cfg.sourceLang,
            targetLang := cfg.targetLang,
            translatedText := translateTextResult text e, timestamp := now })]) := by
  constructor
  · rcases hget : jsMapGet cache (cacheKeyOf cfg.sourceLang text cfg.targetLang) with _ | c
    · rw [translateWithCache_missNone cfg cache text cfg.targetLang now e hget]
      have hset := jsMapSet_of_get_none (m := cache)
        (k := cacheKeyOf cfg.sourceLang text cfg.targetLang)
        { sourceText := text, sourceLang := cfg.sourceLang, targetLang := cfg.targetLang,
          translatedText := translateTextResult text e, timestamp := now } hget
      by_cases hev : MAX_CACHE_SIZE < cache.length + 1
      · have hpos : cache ≠ [] := by
          intro hnil
          rw [hnil] at hev
          simp [MAX_CACHE_SIZE] at hev
        obtain ⟨p, rest, rfl⟩ := List.exists_cons_of_ne_nil hpos
        have hlen : MAX_CACHE_SIZE <
            (p :: (rest ++ [(cacheKeyOf cfg.sourceLang text cfg.targetLang,
              ({ sourceText := text, sourceLang := cfg.sourceLang,
                 targetLang := cfg.targetLang,
                 translatedText := translateTextResult text e,
                 timestamp := now } : TranslationCacheEntry))])).length := by
          simp only [List.length_append, List.length_cons] at hev ⊢
          omega
        rw [hset, List.cons_append, evictIfNeeded_cons hlen]
        simp only [List.length_append, List.length_cons, List.length_nil] at hcap ⊢
        omega
      · have hle : (jsMapSet cache (cacheKeyOf cfg.sourceLang text cfg.targetLang)
            { sourceText := text, sourceLang := cfg.sourceLang,
              targetLang := cfg.targetLang,
              translatedText := translateTextResult text e, timestamp := now }).length ≤
            MAX_CACHE_SIZE := by
          rw [hset]
          simp only [List.length_append, List.length_cons, List.length_nil]
          omega
        rw [evictIfNeeded_of_le hle]
        exact hle
    · by_cases hfresh : now - c.timestamp < CACHE_TTL_MS
      · rw [translateWithCache_hit cfg cache text cfg.targetLang now e c hget hfresh]
        exact hcap
      · rw [translateWithCache_missStale cfg cache text cfg.targetLang now e c hget hfresh]
        have hle : (jsMapSet cache (cacheKeyOf cfg.sourceLang text cfg.targetLang)
            { sourceText := text, sourceLang := cfg.sourceLang,
              targetLang := cfg.targetLang,
              translatedText := translateTextResult text e, timestamp := now }).length ≤
            MAX_CACHE_SIZE := by
          rw [jsMapSet_length_some _ hget]
          exact hcap
        rw [evictIfNeeded_of_le hle]
        exact hle
  · intro hlen hget
    rw [translateWithCache_missNone cfg cache text cfg.targetLang now e hget]
    have hset := jsMapSet_of_get_none (m := cache)
      (k := cacheKeyOf cfg.sourceLang text cfg.targetLang)
      { sourceText := text, sourceLang := cfg.sourceLang, targetLang := cfg.targetLang,
        translatedText := translateTextResult text e, timestamp := now } hget
    have hpos : cache ≠ [] := by
      intro hnil
      rw [hnil] at hlen
      simp [MAX_CACHE_SIZE] at hlen
    obtain ⟨p, rest, rfl⟩ := List.exists_cons_of_ne_nil hpos
    have hov : MAX_CACHE_SIZE <
        (p :: (rest ++ [(cacheKeyOf cfg.sourceLang text cfg.targetLang,
          ({ sourceText := text, sourceLang := cfg.sourceLang,
             targetLang := cfg.targetLang,
             translatedText := translateTextResult text e,
             timestamp := now } : TranslationCacheEntry))])).length := by
      simp only [List.length_append, List.length_cons, List.length_nil]
      simp only [List.length_cons] at hlen
      omega
    rw [hset, List.cons_append, evictIfNeeded_cons hov]
    simp
/-- A nonblank string (in the sense of the JS `!text.trim()` guard) is
nonempty. -/
theorem trimEmpty_false_ne {t : String} (h : trimEmpty t = false) : t ≠ "" := by
  intro heq
  subst heq
  simp [trimEmpty] at h

/-- The earlier-inserted bindings together with a just-appended one always
contain the appended key. -/
theorem contains_append_self (l : List String) (id : String) :
    (l ++ [id]).contains id = true := by
  simp

/-- `processSegment` never changes the active flag. -/
theorem processSegment_isActive (cfg : PipelineConfig) (st : TPState) (text : String)
    (f : Bool) (segId : Option String) (now : Nat) (e : EngineResult) (db : Option String) :
    (processSegment cfg st text f segId now e db).2.isActive = st.isActive := by
  simp only [processSegment]
  split_ifs <;> rfl

/-- After a final segment with an identifier passes the guards of
`processSegment`, the identifier is recorded in `processedSegments`. -/
theorem processSegment_records_id (cfg : PipelineConfig) (st : TPState) (text : String)
    (now : Nat) (e : EngineResult) (db : Option String) (id : String)
    (hact : st.isActive = true) (htxt : trimEmpty text = false) :
    (processSegment cfg st text true (some id) now e db).2.processedSegments.contains id = true := by
  by_cases hap : alreadyProcessed st (some id) = true
  · have hmem : st.processedSegments.contains id = true := by
      simpa [alreadyProcessed] using hap
    simp only [processSegment, hact, htxt]
    rw [if_neg (by simp), if_pos hap]
    exact hmem
  · simp only [processSegment, hact, htxt]
    rw [if_neg (by simp), if_neg (by simpa using hap)]
    split_ifs <;> simp_all [contains_append_self]

/-- A translation-engine failure makes `translateWithCache` return the
original text on a cache miss (the `translateText` fallback propagates). -/
theorem translateWithCache_failure_result (cfg : PipelineConfig)
    (cache : List (String × TranslationCacheEntry)) (text : String) (now : Nat)
    (hmiss : ∀ c, jsMapGet cache (cacheKeyOf cfg.sourceLang text cfg.targetLang) = some c →
      ¬ now - c.timestamp < CACHE_TTL_MS) :
    (translateWithCache cfg cache text cfg.targetLang now EngineResult.failure).result = text ∧
    (translateWithCache cfg cache text cfg.targetLang now EngineResult.failure).engineCalled = true := by
  rcases hget : jsMapGet cache (cacheKeyOf cfg.sourceLang text cfg.targetLang) with _ | c
  · rw [translateWithCache_missNone cfg cache text cfg.targetLang now EngineResult.failure hget]
    exact ⟨rfl, rfl⟩
  · rw [translateWithCache_missStale cfg cache text cfg.targetLang now EngineResult.failure c hget
      (hmiss c hget)]
    exact ⟨rfl, rfl⟩

/-! ## Claim theorems -/

/-- C7: when the Live Audio Session receives an `interrupted` signal at
instant `now`, `clearAudioQueue` calls `stop()` on every scheduled
not-yet-finished source, empties the source set, resets `nextStartTime` to
`now`, and any chunk queued at a later instant starts playing at that instant
(immediately) rather than at the stale schedule. -/
theorem live_interrupt_resets_schedule (st : LiveAudioState) (now later dur : ℚ)
    (h : now ≤ later) :
    (clearAudioQueue st now).2 = st.sources ∧
    (clearAudioQueue st now).1.sources = [] ∧
    (clearAudioQueue st now).1.nextStartTime = now ∧
    (queueAudio (clearAudioQueue st now).1 later dur).2 = later := by
  refine ⟨rfl, rfl, rfl, ?_⟩
  simp [queueAudio, clearAudioQueue, max_eq_right h]

/-- Witness for C7: three chunks are scheduled, the interrupt arrives at
t = 4 s, and a chunk arriving at t = 6 s starts at 6 s. -/
theorem live_interrupt_resets_schedule_witness :
    (clearAudioQueue { nextStartTime := 10, sources := [(3, 5), (5, 8), (8, 12)] } 4).2 =
        [(3, 5), (5, 8), (8, 12)] ∧
    (clearAudioQueue { nextStartTime := 10, sources := [(3, 5), (5, 8), (8, 12)] } 4).1.sources = [] ∧
    (clearAudioQueue { nextStartTime := 10, sources := [(3, 5), (5, 8), (8, 12)] } 4).1.nextStartTime = 4 ∧
    (queueAudio (clearAudioQueue { nextStartTime := 10, sources := [(3, 5), (5, 8), (8, 12)] } 4).1 6 2).2 = 6 :=
  live_interrupt_resets_schedule _ 4 6 2 (by norm_num)

/-- C9 counterexample: `onerror` never clears `isRecognizing`, and the
recognition engine fires the `end` event after a fatal error, so while the
instance is active a `'not-allowed'` (permission denied) or
`'audio-capture'` (no audio device) error is followed by an immediate
restart from the `onend` handler — one automatic retry, where the claim says
these errors never trigger one — and a `'network'` transport error is
retried twice (immediately via `onend` and again via the 1000 ms timer),
where the claim says exactly once. -/
theorem webspeech_retry_claim_cex :
    recognitionRetries true "not-allowed" = 1 ∧
    recognitionRetries true "audio-capture" = 1 ∧
    recognitionRetries true "network" = 2 := by
  decide

/-- C9 (amended): every recognition error is surfaced through the error
callback immediately (exactly one message per error event), and the
`onerror` handler itself schedules a single 1000 ms `restart` timer only for
a `'network'` error while the instance is recognizing — none for
`'not-allowed'` or `'audio-capture'` and none when inactive.  But `onerror`
leaves `isRecognizing` set, and the `end` event that follows a fatal error
makes the `onend` handler call `recognition.start()` at once whenever the
flag is still set; counting both mechanisms over the error-then-end
sequence, an active instance retries a permission-denied or no-audio-device
error once (immediately) and a network error twice (immediately and after
1000 ms), while an inactive instance retries nothing.  The Deepgram
transcript source surfaces its errors immediately and never retries. -/
theorem webspeech_error_retry_behavior :
    (∀ b e, (onRecognitionError b e).1.surfaced = [mapErrorMessage e] ∧
      (onRecognitionError b e).2 = b) ∧
    (onRecognitionError true "network").1.retryDelaysMs = [1000] ∧
    (onRecognitionError false "network").1.retryDelaysMs = [] ∧
    (∀ b, (onRecognitionError b "not-allowed").1.retryDelaysMs = [] ∧
      (onRecognitionError b "not-allowed").1.surfaced =
        ["Microphone permission denied."] ∧
      (onRecognitionError b "audio-capture").1.retryDelaysMs = [] ∧
      (onRecognitionError b "audio-capture").1.surfaced =
        ["No microphone found. Please check your audio settings."]) ∧
    (onRecognitionEnd true).1.immediateRestarts = 1 ∧
    (onRecognitionEnd false).1.immediateRestarts = 0 ∧
    recognitionRetries true "not-allowed" = 1 ∧
    recognitionRetries true "audio-capture" = 1 ∧
    recognitionRetries true "network" = 2 ∧
    (∀ e, recognitionRetries false e = 0) ∧
    (∀ m, (deepgramOnError m).retryDelaysMs = [] ∧
      (deepgramOnError m).immediateRestarts = 0 ∧
      (deepgramOnError m).surfaced.length = 1) := by
  refine ⟨fun b e => ⟨rfl, rfl⟩, rfl, by decide, by decide, by decide, by decide,
    by decide, by decide, by decide, ?_, fun m => ⟨rfl, rfl, rfl⟩⟩
  intro e
  simp [recognitionRetries, onRecognitionError, onRecognitionEnd]


/-- Witness for C4: on a cache filled to exactly `MAX_CACHE_SIZE` entries, a
miss on a fresh key stays within capacity and evicts precisely the
earliest-inserted binding. -/
theorem cache_capacity_and_eviction_witness :
    (translateWithCache c4cfg c4cache "fresh" c4cfg.targetLang 7
      (EngineResult.ok "neu")).cache.length ≤ MAX_CACHE_SIZE ∧
    (translateWithCache c4cfg c4cache "fresh" c4cfg.targetLang 7
      (EngineResult.ok "neu")).cache =
      c4cache.tail ++ [(cacheKeyOf c4cfg.sourceLang "fresh" c4cfg.targetLang,
        { sourceText := "fresh", sourceLang := c4cfg.sourceLang,
          targetLang := c4cfg.targetLang,
          translatedText := translateTextResult "fresh" (EngineResult.ok "neu"),
          timestamp := 7 })] :=
  ⟨(cache_capacity_and_eviction c4cfg c4cache "fresh" 7 (EngineResult.ok "neu")
      (by simp [c4cache])).1,
   (cache_capacity_and_eviction c4cfg c4cache "fresh" 7 (EngineResult.ok "neu")
      (by simp [c4cache])).2 (by simp [c4cache]) (by decide)⟩

/-- C2 counterexample: an interim (`isFinal = false`) segment handed to
`TranslationPipeline.processSegment` on an active pipeline with an empty
cache does invoke the external translation engine, contradicting the claim
that interim segments never produce an engine call. -/
theorem interim_translation_cex :
    Effect.engineTranslate "hola" ∈
      (processSegment
        { roomId := "r", speakerId := "u", sourceLang := "es", targetLang := "en",
          useWebSpeech := true, enableTTS := true }
        { isActive := true, processedSegments := [], cache := [], sttActive := true,
          audioQueuePending := [], audioQueuePlaying := false }
        "hola" false (some "seg-0-partial") 5 (EngineResult.ok "hi") none).1 := by
  decide

/-- C2 (amended): interim segments never reach the translation engine in
`RealtimeTranslationService.handleTranscript` (it returns right after
emitting the transcript), while `TranslationPipeline.processSegment` does
translate interim segments — though for an interim segment it never writes a
segment row to the database and never starts TTS synthesis. -/
theorem interim_translation_policy :
    (∀ (st : RtsState) (seg : TranscriptSegment) (e : EngineResult),
      seg.isFinal = false →
      ∀ s, RtsEffect.engineTranslate s ∉ (handleTranscript st seg e).1) ∧
    (∀ (cfg : PipelineConfig) (st : TPState) (text : String) (segId : Option String)
        (now : Nat) (e : EngineResult) (db : Option String) (s tgt : String),
      Effect.dbSaveSegment s ∉ (processSegment cfg st text false segId now e db).1 ∧
      Effect.ttsRequested s tgt ∉ (processSegment cfg st text false segId now e db).1) := by
  constructor
  · intro st seg e hfin s
    simp only [handleTranscript, hfin]
    split_ifs <;> simp
  · intro cfg st text segId now e db s tgt
    constructor <;>
      · simp only [processSegment]
        split_ifs <;> simp_all

/-- Witness for C2: concrete interim segments produce no engine call in
`handleTranscript` and no database segment write nor TTS in
`processSegment`. -/
theorem interim_translation_policy_witness :
    RtsEffect.engineTranslate "hey" ∉
      (handleTranscript
        { isActive := true, sourceLang := "es", targetLang := "en", cache := [] }
        { id := "seg-0-partial", text := "hey", isFinal := false, startMs := 0,
          endMs := 1, confidence := 1 }
        (EngineResult.ok "x")).1 ∧
    Effect.dbSaveSegment "hey" ∉
      (processSegment
        { roomId := "r", speakerId := "u", sourceLang := "es", targetLang := "en",
          useWebSpeech := true, enableTTS := true }
        { isActive := true, processedSegments := [], cache := [], sttActive := true,
          audioQueuePending := [], audioQueuePlaying := false }
        "hey" false none 0 (EngineResult.ok "x") none).1 ∧
    Effect.ttsRequested "hey" "en" ∉
      (processSegment
        { roomId := "r", speakerId := "u", sourceLang := "es", targetLang := "en",
          useWebSpeech := true, enableTTS := true }
        { isActive := true, processedSegments := [], cache := [], sttActive := true,
          audioQueuePending := [], audioQueuePlaying := false }
        "hey" false none 0 (EngineResult.ok "x") none).1 :=
  ⟨interim_translation_policy.1 _ _ _ rfl "hey",
   (interim_translation_policy.2 _ _ "hey" none 0 (EngineResult.ok "x") none "hey" "en").1,
   (interim_translation_policy.2 _ _ "hey" none 0 (EngineResult.ok "x") none "hey" "en").2⟩

/-- C5 counterexample: `TranslationPipeline.stop()` does not clear the Audio
Playback Queue — a pending item survives `stop()`, contradicting the claim
that after `stop()` the queue is empty. -/
theorem stop_queue_cex :
    (TPstop { isActive := true, processedSegments := [], cache := [], sttActive := true,
              audioQueuePending := [2400], audioQueuePlaying := true }).audioQueuePending ≠ [] := by
  decide

/-- C5 (amended): `stop()` from any state deactivates the pipeline and stops
the transcript source, and a stopped pipeline processes no further segments
(no callbacks, no engine calls, no writes); `RealtimeTranslationService.stop()`
on an active service additionally clears the live session's scheduled audio,
releases the media stream and audio context, and reports status `idle`.
`TranslationPipeline.stop()`, however, leaves the Audio Playback Queue,
its pending items and its playing flag untouched. -/
theorem stop_teardown :
    (∀ st : TPState, (TPstop st).isActive = false ∧ (TPstop st).sttActive = false ∧
      (TPstop st).audioQueuePending = st.audioQueuePending ∧
      (TPstop st).audioQueuePlaying = st.audioQueuePlaying) ∧
    (∀ (cfg : PipelineConfig) (st : TPState) (text : String) (f : Bool)
        (segId : Option String) (now : Nat) (e : EngineResult) (db : Option String),
      processSegment cfg (TPstop st) text f segId now e db = ([], TPstop st)) ∧
    (∀ st : RtsRunState, st.isActive = true →
      RTSstop st = ([RtsEffect.statusChange "idle"],
        { isActive := false, sttRunning := false, liveConnected := false,
          liveScheduled := [], mediaOpen := false, audioCtxOpen := false })) := by
  refine ⟨fun st => ⟨rfl, rfl, rfl, rfl⟩, ?_, ?_⟩
  · intro cfg st text f segId now e db
    simp [processSegment, TPstop]
  · intro st h
    simp [RTSstop, h]

/-- Witness for C5: a concrete stopped pipeline ignores a new final segment,
and a concrete active realtime service stops to `idle` with everything
released. -/
theorem stop_teardown_witness :
    processSegment
      { roomId := "r", speakerId := "u", sourceLang := "es", targetLang := "en",
        useWebSpeech := true, enableTTS := true }
      (TPstop { isActive := true, processedSegments := [], cache := [], sttActive := true,
                audioQueuePending := [2400], audioQueuePlaying := true })
      "hello" true (some "x") 3 (EngineResult.ok "t") none =
      ([], TPstop { isActive := true, processedSegments := [], cache := [], sttActive := true,
                    audioQueuePending := [2400], audioQueuePlaying := true }) ∧
    RTSstop { isActive := true, sttRunning := true, liveConnected := true,
              liveScheduled := [(3, 5)], mediaOpen := true, audioCtxOpen := true } =
      ([RtsEffect.statusChange "idle"],
       { isActive := false, sttRunning := false, liveConnected := false,
         liveScheduled := [], mediaOpen := false, audioCtxOpen := false }) :=
  ⟨stop_teardown.2.1 _ _ "hello" true (some "x") 3 (EngineResult.ok "t") none,
   stop_teardown.2.2 _ rfl⟩


/-- C6 counterexample: a final segment whose `translateText` call fails at
the engine (active pipeline, empty cache, TTS enabled) produces no `onError`
callback and still starts TTS synthesis with the original text: the engine
failure is swallowed by the original-text fallback, so the pipeline does
advance to the Speaking step. -/
theorem engine_failure_reaches_tts_cex :
    (processSegment
      { roomId := "r", speakerId := "u", sourceLang := "es", targetLang := "en",
        useWebSpeech := true, enableTTS := true }
      { isActive := true, processedSegments := [], cache := [], sttActive := true,
        audioQueuePending := [], audioQueuePlaying := false }
      "Hola" true (some "s1") 0 EngineResult.failure (some "row1")).1 =
      [Effect.onTranscript "Hola" true, Effect.dbSaveSegment "Hola",
       Effect.engineTranslate "Hola", Effect.onTranslation "Hola" true,
       Effect.dbSaveTranslation "Hola" "en", Effect.ttsRequested "Hola" "en"] := by
  decide

/-- C6 (amended): when the external translation engine fails, the Translator
returns the original text as a fallback; the pipeline then treats this as a
successful translation — no error is surfaced through the error callback and,
for a final segment with TTS enabled, synthesis is started with the fallback
text, so the pipeline does advance to Speaking.  (The `onError` path fires
only when the translation result is the empty string, which an engine failure
on nonblank input can never produce.) -/
theorem engine_failure_fallback (cfg : PipelineConfig) (st : TPState) (text : String)
    (segId : Option String) (now : Nat) (db : Option String)
    (hact : st.isActive = true) (htxt : trimEmpty text = false)
    (hnp : alreadyProcessed st segId = false)
    (hmiss : ∀ c, jsMapGet st.cache (cacheKeyOf cfg.sourceLang text cfg.targetLang) = some c →
      ¬ now - c.timestamp < CACHE_TTL_MS) :
    translateTextResult text EngineResult.failure = text ∧
    (∀ m, Effect.onError m ∉
      (processSegment cfg st text true segId now EngineResult.failure db).1) ∧
    (cfg.enableTTS = true →
      Effect.ttsRequested text cfg.targetLang ∈
        (processSegment cfg st text true segId now EngineResult.failure db).1) := by
  obtain ⟨hres, hcalled⟩ := translateWithCache_failure_result cfg st.cache text now hmiss
  have hne : text ≠ "" := trimEmpty_false_ne htxt
  have hap : ¬ alreadyProcessed st segId = true := by simp [hnp]
  refine ⟨rfl, ?_, ?_⟩
  · intro m
    simp only [processSegment, hact, htxt]
    rw [if_neg (by simp), if_neg hap]
    simp only [hres, hcalled]
    rw [if_neg hne]
    simp
  · intro htts
    simp only [processSegment, hact, htxt]
    rw [if_neg (by simp), if_neg hap]
    simp only [hres, hcalled]
    rw [if_neg hne]
    simp [htts]

/-- Witness for C6 (amended): concrete instantiation of the fallback
behaviour at an engine failure on `"Hola"`. -/
theorem engine_failure_fallback_witness :
    translateTextResult "Hola" EngineResult.failure = "Hola" ∧
    Effect.onError "Translation failed" ∉
      (processSegment
        { roomId := "r", speakerId := "u", sourceLang := "es", targetLang := "en",
          useWebSpeech := true, enableTTS := true }
        { isActive := true, processedSegments := [], cache := [], sttActive := true,
          audioQueuePending := [], audioQueuePlaying := false }
        "Hola" true (some "s2") 0 EngineResult.failure (some "row1")).1 ∧
    Effect.ttsRequested "Hola" "en" ∈
      (processSegment
        { roomId := "r", speakerId := "u", sourceLang := "es", targetLang := "en",
          useWebSpeech := true, enableTTS := true }
        { isActive := true, processedSegments := [], cache := [], sttActive := true,
          audioQueuePending := [], audioQueuePlaying := false }
        "Hola" true (some "s2") 0 EngineResult.failure (some "row1")).1 :=
  ⟨(engine_failure_fallback
      { roomId := "r", speakerId := "u", sourceLang := "es", targetLang := "en",
        useWebSpeech := true, enableTTS := true }
      { isActive := true, processedSegments := [], cache := [], sttActive := true,
        audioQueuePending := [], audioQueuePlaying := false }
      "Hola" (some "s2") 0 (some "row1")
      rfl (by decide) (by decide) (by intro c hc; simp [jsMapGet] at hc)).1,
   (engine_failure_fallback
      { roomId := "r", speakerId := "u", sourceLang := "es", targetLang := "en",
        useWebSpeech := true, enableTTS := true }
      { isActive := true, processedSegments := [], cache := [], sttActive := true,
        audioQueuePending := [], audioQueuePlaying := false }
      "Hola" (some "s2") 0 (some "row1")
      rfl (by decide) (by decide) (by intro c hc; simp [jsMapGet] at hc)).2.1 "Translation failed",
   (engine_failure_fallback
      { roomId := "r", speakerId := "u", sourceLang := "es", targetLang := "en",
        useWebSpeech := true, enableTTS := true }
      { isActive := true, processedSegments := [], cache := [], sttActive := true,
        audioQueuePending := [], audioQueuePlaying := false }
      "Hola" (some "s2") 0 (some "row1")
      rfl (by decide) (by decide) (by intro c hc; simp [jsMapGet] at hc)).2.2 rfl⟩

/-- C10: once a final segment with a given identifier has been processed by
`processSegment` on an active pipeline (nonblank text), any later
`processSegment` call carrying the same identifier returns with no effects at
all — no callback, no external translation call, no database write — and
leaves the state unchanged. -/
theorem final_segment_dedup (cfg : PipelineConfig) (st : TPState) (text id : String)
    (now : Nat) (e : EngineResult) (db : Option String)
    (hact : st.isActive = true) (htxt : trimEmpty text = false) :
    ∀ (text₂ : String) (f₂ : Bool) (now₂ : Nat) (e₂ : EngineResult) (db₂ : Option String),
      processSegment cfg (processSegment cfg st text true (some id) now e db).2
          text₂ f₂ (some id) now₂ e₂ db₂ =
        ([], (processSegment cfg st text true (some id) now e db).2) := by
  intro text₂ f₂ now₂ e₂ db₂
  have h1 : (processSegment cfg st text true (some id) now e db).2.isActive = true := by
    rw [processSegment_isActive]
    exact hact
  have h2 := processSegment_records_id cfg st text now e db id hact htxt
  set st1 := (processSegment cfg st text true (some id) now e db).2 with hst1
  by_cases ht2 : trimEmpty text₂ = true
  · simp [processSegment, ht2]
  · have hap : alreadyProcessed st1 (some id) = true := by
      simpa [alreadyProcessed] using h2
    simp only [processSegment]
    rw [if_neg (by simp [h1, ht2]), if_pos hap]

/-- Witness for C10: after processing final segment `"dg-3-final"`, a second
delivery of the same identifier is a complete no-op. -/
theorem final_segment_dedup_witness :
    processSegment
      { roomId := "r", speakerId := "u", sourceLang := "es", targetLang := "en",
        useWebSpeech := true, enableTTS := true }
      (processSegment
        { roomId := "r", speakerId := "u", sourceLang := "es", targetLang := "en",
          useWebSpeech := true, enableTTS := true }
        { isActive := true, processedSegments := [], cache := [], sttActive := true,
          audioQueuePending := [], audioQueuePlaying := false }
        "Hola" true (some "dg-3-final") 0 (EngineResult.ok "Hello") (some "row1")).2
      "Hola otra vez" true (some "dg-3-final") 9 (EngineResult.ok "x") none =
      ([], (processSegment
        { roomId := "r", speakerId := "u", sourceLang := "es", targetLang := "en",
          useWebSpeech := true, enableTTS := true }
        { isActive := true, processedSegments := [], cache := [], sttActive := true,
          audioQueuePending := [], audioQueuePlaying := false }
        "Hola" true (some "dg-3-final") 0 (EngineResult.ok "Hello") (some "row1")).2) :=
  final_segment_dedup _ _ "Hola" "dg-3-final" 0 (EngineResult.ok "Hello") (some "row1")
    rfl (by decide) "Hola otra vez" true 9 (EngineResult.ok "x") none


/-- `splitColon` splits at the first colon. -/
theorem splitColon_append (l r : List Char) (hl : ':' ∉ l) :
    splitColon (l ++ ':' :: r) = some (l, r) := by
  induction l with
  | nil => simp [splitColon]
  | cons c cs ih =>
    have hc : c ≠ ':' := fun h => hl (by rw [h]; exact List.mem_cons_self _ _)
    have hcs : ':' ∉ cs := fun h => hl (List.mem_cons_of_mem _ h)
    simp [splitColon, hc, ih hcs]

/-- The `^([^:]+):\s+(.+)$` extraction of `transcriptLogger.ts` recovers the
label and the raw text from a labelled transcript (a colon-free nonempty
label, a nonempty text that does not begin with whitespace and contains no
line terminator). -/
theorem regexStripLabel_roundtrip (label t : String)
    (hl : label ≠ "") (hlc : ':' ∉ label.data) (ht : t ≠ "")
    (hhead : ∀ c, t.data.head? = some c → jsWhitespace c = false)
    (hdot : t.data.all dotOk = true) :
    regexStripLabel (label ++ ": " ++ t) = some (label, t) := by
  have hdata : (label ++ ": " ++ t).data = label.data ++ ':' :: ' ' :: t.data := by
    show (label.data ++ [':', ' ']) ++ t.data = _
    simp
  have hbne : label.data ≠ [] := by
    intro h
    apply hl
    obtain ⟨d⟩ := label
    exact congrArg String.mk h
  have htne : t.data ≠ [] := by
    intro h
    apply ht
    obtain ⟨d⟩ := t
    exact congrArg String.mk h
  have htw : (' ' :: t.data).takeWhile jsWhitespace = [' '] := by
    rcases htd : t.data with _ | ⟨c, cs⟩
    · exact absurd htd htne
    · have hw := hhead c (by rw [htd]; rfl)
      have h1 : jsWhitespace ' ' = true := rfl
      simp [List.takeWhile, h1, hw]
  have htry : tryDots ((' ' :: t.data).takeWhile jsWhitespace).length (' ' :: t.data) =
      some t.data := by
    rw [htw]
    show tryDots 1 (' ' :: t.data) = some t.data
    simp only [tryDots, List.drop_succ_cons, List.drop_zero]
    rw [if_pos ⟨htne, hdot⟩]
  have hmain : regexStripLabel (label ++ ": " ++ t) =
      (if label.data = [] then none
       else match tryDots ((' ' :: t.data).takeWhile jsWhitespace).length (' ' :: t.data) with
         | some rest => some (String.mk label.data, String.mk rest)
         | none => none) := by
    simp only [regexStripLabel, hdata]
    rw [splitColon_append label.data (' ' :: t.data) hlc]
  rw [hmain, if_neg hbne, htry]

/-- The translation engine input of `processSegment` is always the segment
text exactly as handed in: no label stripping happens on the way to the
Translator. -/
theorem processSegment_engine_input (cfg : PipelineConfig) (st : TPState) (text : String)
    (f : Bool) (segId : Option String) (now : Nat) (e : EngineResult) (db : Option String)
    (s : String) :
    Effect.engineTranslate s ∈ (processSegment cfg st text f segId now e db).1 → s = text := by
  simp only [processSegment]
  split_ifs <;> intro h <;> simp_all

/-- C8 counterexample: with speaker label `"Mario"` configured, the emitted
segment text is `"Mario: Hello"`, and it is this full labelled text — not the
stripped `"Hello"` — that `processSegment` hands to the translation engine:
the label prefix is not stripped before translation. -/
theorem label_sent_to_translator_cex :
    ((dgHandleTranscript { label := "Mario", segmentCounter := 0 } "Hello" true 1 0).1.map
      (fun seg => seg.text)) = some "Mario: Hello" ∧
    Effect.engineTranslate "Mario: Hello" ∈
      (processSegment
        { roomId := "r", speakerId := "Mario", sourceLang := "en", targetLang := "es",
          useWebSpeech := true, enableTTS := true }
        { isActive := true, processedSegments := [], cache := [], sttActive := true,
          audioQueuePending := [], audioQueuePlaying := false }
        "Mario: Hello" true (some "dg-0-final") 0 (EngineResult.ok "hola") (some "row")).1 ∧
    Effect.engineTranslate "Hello" ∉
      (processSegment
        { roomId := "r", speakerId := "Mario", sourceLang := "en", targetLang := "es",
          useWebSpeech := true, enableTTS := true }
        { isActive := true, processedSegments := [], cache := [], sttActive := true,
          audioQueuePending := [], audioQueuePlaying := false }
        "Mario: Hello" true (some "dg-0-final") 0 (EngineResult.ok "hola") (some "row")).1 := by
  refine ⟨rfl, by decide, by decide⟩

/-- C8 (amended): with a speaker label configured, the Deepgram transcript
source emits the text `label ++ ": " ++ transcript`; the
`^([^:]+):\s+(.+)$` extraction is applied only by the transcript logger,
which strips the prefix before persisting the row to the database; the text
handed to the Translator by `processSegment` is the unmodified segment text,
so a labelled segment is translated with its label still attached. -/
theorem label_prefix_handling :
    (∀ (st : DgState) (transcript : String) (f : Bool) (conf : ℚ) (now : Nat),
      st.label ≠ "" → trimEmpty transcript = false →
      ((dgHandleTranscript st transcript f conf now).1.map (fun seg => seg.text)) =
        some (st.label ++ ": " ++ transcript)) ∧
    (∀ sid label t : String, label ≠ "" → ':' ∉ label.data → t ≠ "" →
      (∀ c, t.data.head? = some c → jsWhitespace c = false) → t.data.all dotOk = true →
      trimEmpty t = false →
      logSegment sid (label ++ ": " ++ t) = some (sid, label, t)) ∧
    (∀ (cfg : PipelineConfig) (st : TPState) (text : String) (f : Bool)
        (segId : Option String) (now : Nat) (e : EngineResult) (db : Option String)
        (s : String),
      Effect.engineTranslate s ∈ (processSegment cfg st text f segId now e db).1 →
        s = text) := by
  refine ⟨?_, ?_, processSegment_engine_input⟩
  · intro st transcript f conf now hl htxt
    simp [dgHandleTranscript, htxt, hl]
  · intro sid label t hl hlc ht hhead hdot htrim
    simp only [logSegment, regexStripLabel_roundtrip label t hl hlc ht hhead hdot, htrim]
    simp [htrim]

/-- Witness for C8: the concrete labelled transcript `"Mario: Hello"` is
emitted with the prefix, the logger strips it back to
`("Mario", "Hello")`, and a membership fact about the engine input follows
from the third conjunct. -/
theorem label_prefix_handling_witness :
    ((dgHandleTranscript { label := "Mario", segmentCounter := 4 } "Hi there" false (1/2) 9).1.map
      (fun seg => seg.text)) = some "Mario: Hi there" ∧
    logSegment "sess" ("Mario" ++ ": " ++ "Hello") = some ("sess", "Mario", "Hello") :=
  ⟨label_prefix_handling.1 { label := "Mario", segmentCounter := 4 } "Hi there" false (1/2) 9
      (by decide) (by decide),
   label_prefix_handling.2.1 "sess" "Mario" "Hello" (by decide) (by decide) (by decide)
      (by intro c hc; rw [← Option.some.inj hc]; decide) (by decide) (by decide)⟩


/-- End of the last interval after appending. -/
theorem lastEnd_concat (l : List (Nat × Nat)) (p : Nat × Nat) :
    lastEnd (l ++ [p]) = p.2 := by
  induction l with
  | nil => rfl
  | cons a l ih =>
    cases l with
    | nil => rfl
    | cons b l' => exact ih

/-- Appending an interval that starts at least `gapMs` after the current
last end preserves gap separation. -/
theorem aqChainOk_concat (s e : Nat) :
    ∀ (l : List (Nat × Nat)), aqChainOk l = true →
      (l = [] ∨ lastEnd l + gapMs ≤ s) → aqChainOk (l ++ [(s, e)]) = true
  | [], _, _ => rfl
  | [a], _, hs => by
    rcases hs with h' | h'
    · simp at h'
    · simp only [List.cons_append, List.nil_append, aqChainOk, Bool.and_eq_true,
        decide_eq_true_eq]
      exact ⟨h', trivial⟩
  | a :: b :: l', h, hs => by
    simp only [aqChainOk, Bool.and_eq_true] at h
    have hs' : (b :: l') = [] ∨ lastEnd (b :: l') + gapMs ≤ s := by
      rcases hs with h' | h'
      · simp at h'
      · exact Or.inr h'
    have hrec := aqChainOk_concat s e (b :: l') h.2 hs'
    simp only [List.cons_append, aqChainOk, Bool.and_eq_true] at hrec ⊢
    exact ⟨h.1, hrec⟩

/-- In a gap-separated well-formed history, the head ends at least `gapMs`
before every later interval starts. -/
theorem aqChainOk_le_of_mem :
    ∀ (a : Nat × Nat) (l : List (Nat × Nat)), aqChainOk (a :: l) = true →
      (∀ p ∈ l, p.1 ≤ p.2) → ∀ b ∈ l, a.2 + gapMs ≤ b.1
  | _, [], _, _, b, hb => absurd hb (List.not_mem_nil b)
  | a, c :: l', h, hwf, b, hb => by
    simp only [aqChainOk, Bool.and_eq_true, decide_eq_true_eq] at h
    rcases List.mem_cons.mp hb with rfl | hb'
    · exact h.1
    · have hc : c.1 ≤ c.2 := hwf c (List.mem_cons_self _ _)
      have hrec := aqChainOk_le_of_mem c l' h.2
        (fun p hp => hwf p (List.mem_cons_of_mem _ hp)) b hb'
      omega

/-- Gap separation of consecutive items gives pairwise separation: every
later item starts at least `gapMs` after every earlier item ends (hence no
two items are ever audible simultaneously). -/
theorem aqChainOk_pairwise :
    ∀ (l : List (Nat × Nat)), aqChainOk l = true → (∀ p ∈ l, p.1 ≤ p.2) →
      l.Pairwise (fun a b => a.2 + gapMs ≤ b.1)
  | [], _, _ => List.Pairwise.nil
  | a :: l, h, hwf => by
    have hh : aqChainOk l = true := by
      cases l with
      | nil => rfl
      | cons b l' =>
        simp only [aqChainOk, Bool.and_eq_true] at h
        exact h.2
    refine List.Pairwise.cons ?_
      (aqChainOk_pairwise l hh (fun p hp => hwf p (List.mem_cons_of_mem _ hp)))
    exact aqChainOk_le_of_mem a l h (fun p hp => hwf p (List.mem_cons_of_mem _ hp))

/-- Firing the timers due by `t` preserves the queue invariant. -/
theorem runWakes_inv : ∀ (fuel t : Nat) (st : AQState),
    AQInv st → AQTime t st → st.chains.length + st.pending.length ≤ fuel →
    AQInv (runWakes fuel t st) ∧ AQTime t (runWakes fuel t st)
  | 0, _, _, hinv, htime, _ => ⟨hinv, htime⟩
  | fuel + 1, t, st, hinv, htime, hfuel => by
    rcases hch : st.chains with _ | ⟨w, ws⟩
    · simp only [runWakes, hch, minUnder]
      exact ⟨hinv, htime⟩
    · have hws : ws = [] := by
        have hle := hinv.chainsLe
        rw [hch] at hle
        simpa using hle
      subst hws
      have hwmem : w ∈ st.chains := by rw [hch]; exact List.mem_cons_self _ _
      have hgap := hinv.chainsGap w hwmem
      by_cases hwt : w ≤ t
      · have hmin : minUnder t [w] = some w := by simp [minUnder, hwt]
        have hrem : removeOne [w] w = [] := by simp [removeOne]
        simp only [runWakes, hch, hmin, hrem]
        rcases hpd : st.pending with _ | ⟨d, ps⟩
        · have hbody : wakeBody st w [] = { st with chains := [], isPlaying := false } := by
            simp [wakeBody, hpd]
          rw [hbody]
          refine runWakes_inv fuel t _ ?_ ?_ ?_
          · exact ⟨hinv.playOk, hinv.wfPlayed, by simp,
              by simp, fun _ => hpd, by simp⟩
          · intro _
            rcases hgap with h | h
            · exact Or.inl h
            · exact Or.inr (le_trans h hwt)
          · simp [hpd]
        · have hbody : wakeBody st w [] =
              { chains := [w + d + gapMs], pending := ps, isPlaying := true,
                played := st.played ++ [(w, w + d)] } := by
            simp [wakeBody, hpd]
          rw [hbody]
          refine runWakes_inv fuel t _ ?_ ?_ ?_
          · refine ⟨aqChainOk_concat w (w + d) st.played hinv.playOk hgap, ?_, by simp,
              by simp, by simp, ?_⟩
            · intro p hp
              rcases List.mem_append.mp hp with h | h
              · exact hinv.wfPlayed p h
              · simp only [List.mem_singleton] at h
                subst h
                exact Nat.le_add_right _ _
            · intro w' hw'
              simp only [List.mem_singleton] at hw'
              subst hw'
              refine Or.inr ?_
              rw [lastEnd_concat]
          · intro h
            simp at h
          · rw [hch, hpd] at hfuel
            simp only [List.length_cons, List.length_singleton, List.length_nil] at hfuel ⊢
            omega
      · have hmin : minUnder t [w] = none := by simp [minUnder, hwt]
        simp only [runWakes, hch, hmin]
        exact ⟨hinv, htime⟩

/-- Letting every remaining timer fire preserves the queue invariant. -/
theorem runWakesAll_inv : ∀ (fuel : Nat) (st : AQState),
    AQInv st → st.chains.length + st.pending.length ≤ fuel →
    AQInv (runWakesAll fuel st)
  | 0, _, hinv, _ => hinv
  | fuel + 1, st, hinv, hfuel => by
    rcases hch : st.chains with _ | ⟨w, ws⟩
    · simp only [runWakesAll, hch, minOf]
      exact hinv
    · have hws : ws = [] := by
        have hle := hinv.chainsLe
        rw [hch] at hle
        simpa using hle
      subst hws
      have hwmem : w ∈ st.chains := by rw [hch]; exact List.mem_cons_self _ _
      have hgap := hinv.chainsGap w hwmem
      have hmin : minOf [w] = some w := by simp [minOf]
      have hrem : removeOne [w] w = [] := by simp [removeOne]
      simp only [runWakesAll, hch, hmin, hrem]
      rcases hpd : st.pending with _ | ⟨d, ps⟩
      · have hbody : wakeBody st w [] = { st with chains := [], isPlaying := false } := by
          simp [wakeBody, hpd]
        rw [hbody]
        refine runWakesAll_inv fuel _ ?_ ?_
        · exact ⟨hinv.playOk, hinv.wfPlayed, by simp, by simp, fun _ => hpd, by simp⟩
        · simp [hpd]
      · have hbody : wakeBody st w [] =
            { chains := [w + d + gapMs], pending := ps, isPlaying := true,
              played := st.played ++ [(w, w + d)] } := by
          simp [wakeBody, hpd]
        rw [hbody]
        refine runWakesAll_inv fuel _ ?_ ?_
        · refine ⟨aqChainOk_concat w (w + d) st.played hinv.playOk hgap, ?_, by simp,
            by simp, by simp, ?_⟩
          · intro p hp
            rcases List.mem_append.mp hp with h | h
            · exact hinv.wfPlayed p h
            · simp only [List.mem_singleton] at h
              subst h
              exact Nat.le_add_right _ _
          · intro w' hw'
            simp only [List.mem_singleton] at hw'
            subst hw'
            refine Or.inr ?_
            rw [lastEnd_concat]
        · rw [hch, hpd] at hfuel
          simp only [List.length_cons, List.length_singleton, List.length_nil] at hfuel ⊢
          omega

/-- The synchronous `processQueue` started by an `enqueue` on an idle queue
plays the single pending item immediately and re-suspends after the gap. -/
theorem runWakes_spawn (t d : Nat) (P : List (Nat × Nat)) :
    runWakes 2 t { chains := [t], pending := [d], isPlaying := false, played := P } =
      { chains := [t + d + gapMs], pending := [], isPlaying := true,
        played := P ++ [(t, t + d)] } := by
  have h2 : ¬ (t + d + gapMs ≤ t) := by
    simp only [gapMs]
    omega
  simp [runWakes, minUnder, removeOne, wakeBody, h2]


/-- One external command (that is not `clear`) preserves the queue
invariant. -/
theorem aqStep_inv (st : AQState) (t : Nat) (c : QCmd)
    (hinv : AQInv st) (htime : AQTime t st) (hc : c ≠ QCmd.clear) :
    AQInv (aqStep st t c) ∧ AQTime t (aqStep st t c) := by
  obtain ⟨hinv1, htime1⟩ :=
    runWakes_inv (st.chains.length + st.pending.length) t st hinv htime le_rfl
  cases c with
  | clear => exact absurd rfl hc
  | enqueue d =>
    set st1 := runWakes (st.chains.length + st.pending.length) t st with hst1
    by_cases hp : st1.isPlaying = true
    · have hgoal : aqStep st t (QCmd.enqueue d) =
          { st1 with pending := st1.pending ++ [d] } := by
        simp [aqStep, ← hst1, hp]
      rw [hgoal]
      refine ⟨⟨hinv1.playOk, hinv1.wfPlayed, hinv1.chainsLe, hinv1.flagIff,
        fun h => absurd (show st1.isPlaying = false from h) (by simp [hp]),
        hinv1.chainsGap⟩,
        fun h => absurd (show st1.chains = [] from h) (hinv1.flagIff.mp hp)⟩
    · have hpf : st1.isPlaying = false := by
        revert hp
        cases st1.isPlaying <;> simp
      have hch : st1.chains = [] := by
        by_contra h
        exact hp (hinv1.flagIff.mpr h)
      have hpend : st1.pending = [] := hinv1.idleNoPending hpf
      have hgoal : aqStep st t (QCmd.enqueue d) =
          { chains := [t + d + gapMs], pending := [], isPlaying := true,
            played := st1.played ++ [(t, t + d)] } := by
        have hsp := runWakes_spawn t d st1.played
        simp [aqStep, ← hst1, hpf, hch, hpend, hsp]
      rw [hgoal]
      have hgap : st1.played = [] ∨ lastEnd st1.played + gapMs ≤ t := htime1 hch
      refine ⟨⟨aqChainOk_concat t (t + d) st1.played hinv1.playOk hgap, ?_, by simp,
        by simp, by simp, ?_⟩, ?_⟩
      · intro p hp'
        rcases List.mem_append.mp hp' with h | h
        · exact hinv1.wfPlayed p h
        · simp only [List.mem_singleton] at h
          subst h
          exact Nat.le_add_right _ _
      · intro w' hw'
        simp only [List.mem_singleton] at hw'
        subst hw'
        refine Or.inr ?_
        rw [lastEnd_concat]
      · intro h
        simp at h

/-- A clear-free, time-monotone command sequence preserves the queue
invariant across its whole execution. -/
theorem aqExec_inv : ∀ (cmds : List (Nat × QCmd)) (t0 : Nat) (st : AQState),
    AQInv st → AQTime t0 st → timesMonoFrom t0 cmds →
    (∀ c ∈ cmds, c.2 ≠ QCmd.clear) → AQInv (aqExec st cmds)
  | [], _, _, hinv, _, _, _ => hinv
  | c :: rest, t0, st, hinv, htime, hmono, hnc => by
    obtain ⟨h1, h2⟩ := hmono
    have htime' : AQTime c.1 st := by
      intro hch
      rcases htime hch with h | h
      · exact Or.inl h
      · exact Or.inr (le_trans h h1)
    obtain ⟨hinv2, htime2⟩ :=
      aqStep_inv st c.1 c.2 hinv htime' (hnc c (List.mem_cons_self _ _))
    exact aqExec_inv rest c.1 (aqStep st c.1 c.2) hinv2 htime2 h2
      (fun x hx => hnc x (List.mem_cons_of_mem _ hx))

/-- C1 counterexample: with a `clear()` interleaved, the claimed property
fails — `clear()` does not stop the sounding source, so an item enqueued
right after a `clear()` starts while the previous item is still audible:
the run plays the intervals `(0, 1000)` and `(200, 1200)`, which overlap,
and the start-to-end distance `200 - 1000` is far below the 500 ms gap. -/
theorem audioqueue_clear_overlap_cex :
    (aqRun [(0, QCmd.enqueue 1000), (100, QCmd.clear),
            (200, QCmd.enqueue 1000)]).played = [(0, 1000), (200, 1200)] ∧
    aqChainOk (aqRun [(0, QCmd.enqueue 1000), (100, QCmd.clear),
                      (200, QCmd.enqueue 1000)]).played = false := by
  decide

/-- C1 (amended): for every clear-free sequence of enqueued items (arriving
at nondecreasing instants), the configured gap is 500 ms, every played item
starts at least `gapMs` after the previous item ends, and pairwise no item
starts before `gapMs` past the end of any earlier item — in particular no
two items are ever playing at the same time. -/
theorem audioqueue_noclear_gap (cmds : List (Nat × QCmd))
    (hmono : timesMonoFrom 0 cmds) (hnc : ∀ c ∈ cmds, c.2 ≠ QCmd.clear) :
    gapMs = 500 ∧
    aqChainOk (aqRun cmds).played = true ∧
    (aqRun cmds).played.Pairwise (fun a b => a.2 + gapMs ≤ b.1) := by
  have hinv0 : AQInv aqInit :=
    ⟨rfl, by simp [aqInit], by simp [aqInit], by simp [aqInit],
     fun _ => rfl, by simp [aqInit]⟩
  have htime0 : AQTime 0 aqInit := fun _ => Or.inl rfl
  have hexec := aqExec_inv cmds 0 aqInit hinv0 htime0 hmono hnc
  have hfin := runWakesAll_inv
    ((aqExec aqInit cmds).chains.length + (aqExec aqInit cmds).pending.length)
    (aqExec aqInit cmds) hexec le_rfl
  exact ⟨rfl, hfin.playOk, aqChainOk_pairwise _ hfin.playOk hfin.wfPlayed⟩

/-- Witness for C1 (amended): three items enqueued without `clear()` play as
`(0, 300)`, `(1000, 1200)` and `(1700, 1800)` — gap-separated and
non-overlapping. -/
theorem audioqueue_noclear_gap_witness :
    gapMs = 500 ∧
    aqChainOk (aqRun [(0, QCmd.enqueue 300), (1000, QCmd.enqueue 200),
                      (1001, QCmd.enqueue 100)]).played = true ∧
    (aqRun [(0, QCmd.enqueue 300), (1000, QCmd.enqueue 200),
            (1001, QCmd.enqueue 100)]).played.Pairwise
      (fun a b => a.2 + gapMs ≤ b.1) :=
  audioqueue_noclear_gap
    [(0, QCmd.enqueue 300), (1000, QCmd.enqueue 200), (1001, QCmd.enqueue 100)]
    (by refine ⟨by norm_num, by norm_num, by norm_num, trivial⟩)
    (by decide)

end Makata
